import Mathlib

/-
Verification of the real-time audio capture core:
ring buffer, voice-activity detector, capture lifecycle, device-change
detection and the bounded segment window, shallowly embedded from the
TypeScript sources (audio-capture-manager, audio-device-manager,
speech-service-manager). Samples and timestamps are modelled as rationals,
sample counts and cursor positions as naturals.
-/

set_option autoImplicit false

namespace AudioMCP

/-! ## Ring buffer

Embeds `class RingBuffer` from the capture manager source. The backing
`Float32Array` becomes a total map from indices to rationals; only indices
below `size` are ever touched. The JavaScript expression
`(writePos - readPos + size) % size` is written
`(writePos + size - readPos) % size` here, which agrees with it whenever
both cursors lie below `size`. -/

structure RingBuffer where
  buffer : ℕ → ℚ
  writePos : ℕ
  readPos : ℕ
  size : ℕ

namespace RingBuffer

/-- Constructor: `new RingBuffer(sizeInSamples)` - zeroed storage, both
cursors at zero. -/
def new (sizeInSamples : ℕ) : RingBuffer :=
  { buffer := fun _ => 0, writePos := 0, readPos := 0, size := sizeInSamples }

/-- Source `getAvailableData()`: `(writePos - readPos + size) % size`. -/
def getAvailableData (rb : RingBuffer) : ℕ :=
  (rb.writePos + rb.size - rb.readPos) % rb.size

/-- Source `getAvailableSpace()`: `size - getAvailableData() - 1`. -/
def getAvailableSpace (rb : RingBuffer) : ℕ :=
  rb.size - rb.getAvailableData - 1

/-- One iteration of the copy loop in `write`: store one sample at the
write cursor and advance it modulo `size`. -/
def write1 (rb : RingBuffer) (x : ℚ) : RingBuffer :=
  { rb with
    buffer := fun p => if p = rb.writePos then x else rb.buffer p
    writePos := (rb.writePos + 1) % rb.size }

/-- The copy loop of `write`, one sample at a time. -/
def writeSamples : RingBuffer → List ℚ → RingBuffer
  | rb, [] => rb
  | rb, x :: rest => writeSamples (rb.write1 x) rest

/-- Source `write(data)`: fail (returning `false`) when the block is larger
than the available space, otherwise copy every sample in. -/
def write (rb : RingBuffer) (data : List ℚ) : Bool × RingBuffer :=
  if data.length > rb.getAvailableSpace then (false, rb)
  else (true, rb.writeSamples data)

/-- The copy loop of `read`: collect `n` samples starting at the read
cursor, advancing it modulo `size`. -/
def readLoop : RingBuffer → ℕ → List ℚ × RingBuffer
  | rb, 0 => ([], rb)
  | rb, n + 1 =>
    let x := rb.buffer rb.readPos
    let step := readLoop { rb with readPos := (rb.readPos + 1) % rb.size } n
    (x :: step.1, step.2)

/-- Source `read(samples)`: return `min samples (getAvailableData())`
samples from the read cursor. -/
def read (rb : RingBuffer) (samples : ℕ) : List ℚ × RingBuffer :=
  rb.readLoop (min samples rb.getAvailableData)

/-- Source `clear()`: reset both cursors. -/
def clear (rb : RingBuffer) : RingBuffer :=
  { rb with writePos := 0, readPos := 0 }

/-- Well-formedness: positive capacity and both cursors in range, as
established by the constructor and preserved by every operation. -/
def WF (rb : RingBuffer) : Prop :=
  0 < rb.size ∧ rb.writePos < rb.size ∧ rb.readPos < rb.size

instance (rb : RingBuffer) : Decidable rb.WF := by
  unfold WF; infer_instance

/-- Unread samples of the buffer, oldest first: the abstraction of the
ring buffer as a first-in-first-out queue. -/
def contents (rb : RingBuffer) : List ℚ :=
  (List.range rb.getAvailableData).map (fun i => rb.buffer ((rb.readPos + i) % rb.size))

end RingBuffer

/-- One external call to the ring buffer. -/
inductive BufferOp where
  | write (samples : List ℚ)
  | read (count : ℕ)

/-- Run a sequence of calls; returns the final buffer together with the
total number of samples successfully written and the total number of
samples returned by reads. -/
def RingBuffer.runOps : RingBuffer → List BufferOp → RingBuffer × ℕ × ℕ
  | rb, [] => (rb, 0, 0)
  | rb, BufferOp.write xs :: rest =>
    let result := rb.write xs
    let next := runOps result.2 rest
    (next.1, (if result.1 then xs.length else 0) + next.2.1, next.2.2)
  | rb, BufferOp.read n :: rest =>
    let result := rb.read n
    let next := runOps result.2 rest
    (next.1, next.2.1, result.1.length + next.2.2)

/-! ## Voice activity detector

Embeds `class VoiceActivityDetector`. The source computes the RMS energy
`Math.sqrt(sum of squares / length)` and compares it against the two
thresholds. Since the square root is monotone and the thresholds are
non-negative in every configuration the source constructs, the comparisons
are carried out here on the mean square against the squared thresholds;
`sq_comparison_model` below records the equivalence with the source's
square-root comparison. -/

structure VoiceActivityDetector where
  energyThreshold : ℚ
  silenceThreshold : ℚ
  minSpeechDuration : ℚ
  minSilenceDuration : ℚ
  speechStartTime : ℚ
  silenceStartTime : ℚ
  isSpeaking : Bool
  deriving DecidableEq, Repr

namespace VoiceActivityDetector

/-- The constructor with explicit arguments: timers zeroed, not speaking. -/
def create (energyThreshold silenceThreshold minSpeechDuration minSilenceDuration : ℚ) :
    VoiceActivityDetector :=
  { energyThreshold := energyThreshold
    silenceThreshold := silenceThreshold
    minSpeechDuration := minSpeechDuration
    minSilenceDuration := minSilenceDuration
    speechStartTime := 0
    silenceStartTime := 0
    isSpeaking := false }

/-- The constructor with the source's default arguments
`(0.01, 0.005, 300, 500)`. -/
def default : VoiceActivityDetector := create 0.01 0.005 300 500

/-- Source `calculateEnergy` squared: mean of the squared samples (the
source then takes the square root; comparisons here use the square). -/
def calculateEnergySq (audioData : List ℚ) : ℚ :=
  (audioData.map fun x => x * x).sum / audioData.length

/-- Source `processAudio(audioData, timestamp)`: energy-based state machine
with hysteresis and debounce; returns the voice-activity verdict together
with the updated detector state. -/
def processAudio (vad : VoiceActivityDetector) (audioData : List ℚ) (timestamp : ℚ) :
    Bool × VoiceActivityDetector :=
  let energySq := calculateEnergySq audioData
  let now := timestamp
  let vad1 :=
    if energySq > vad.energyThreshold ^ 2 then
      { vad with
        speechStartTime := if vad.isSpeaking then vad.speechStartTime else now
        isSpeaking := true
        silenceStartTime := 0 }
    else if energySq < vad.silenceThreshold ^ 2 then
      let vad0 :=
        if vad.isSpeaking ∧ vad.silenceStartTime = 0 then
          { vad with silenceStartTime := now }
        else vad
      if vad0.isSpeaking ∧ vad0.silenceStartTime > 0 ∧
          now - vad0.silenceStartTime > vad0.minSilenceDuration then
        { vad0 with isSpeaking := false, speechStartTime := 0, silenceStartTime := 0 }
      else vad0
    else vad
  (vad1.isSpeaking && decide (now - vad1.speechStartTime > vad1.minSpeechDuration), vad1)

/-- Feed a sequence of timestamped blocks through the detector, collecting
the verdicts. -/
def runVad : VoiceActivityDetector → List (List ℚ × ℚ) → List Bool × VoiceActivityDetector
  | vad, [] => ([], vad)
  | vad, (block, t) :: rest =>
    let step := vad.processAudio block t
    let next := runVad step.2 rest
    (step.1 :: next.1, next.2)

/-- A concrete detector state used as a test input: default configuration,
speaking since time 50, silence first observed at time 1000. -/
def speakingSince50 : VoiceActivityDetector :=
  { energyThreshold := 0.01
    silenceThreshold := 0.005
    minSpeechDuration := 300
    minSilenceDuration := 500
    speechStartTime := 50
    silenceStartTime := 1000
    isSpeaking := true }

end VoiceActivityDetector

/-! ## Devices and device-change detection

Embeds the `AudioDevice` record and `AudioDeviceManager.detectDeviceChanges`.
The two JavaScript `Map`s iterate in insertion order, so they are modelled
as lists of device records with pairwise distinct ids. -/

structure AudioDevice where
  id : String
  name : String
  isDefault : Bool
  isEnabled : Bool
  channels : ℕ
  sampleRate : ℕ
  deriving DecidableEq, Repr

inductive DeviceChangeType where
  | added
  | removed
  | defaultChanged
  | stateChanged
  deriving DecidableEq, Repr

structure DeviceChangeEvent where
  type : DeviceChangeType
  device : AudioDevice
  timestamp : ℚ
  deriving DecidableEq, Repr

/-- Source `detectDeviceChanges(oldDevices, newDevices)`: emit added events
(iterating the new map), removed events (iterating the old map), a
default-changed event when the device marked default differs and the new
map has one, and state-changed events for devices whose `isEnabled`
flipped. `now` is the shared timestamp `Date.now()`. -/
def detectDeviceChanges (now : ℚ) (oldDevices newDevices : List AudioDevice) :
    List DeviceChangeEvent :=
  let addedEvents :=
    (newDevices.filter fun d => !(oldDevices.any fun o => o.id == d.id)).map
      fun d => { type := DeviceChangeType.added, device := d, timestamp := now }
  let removedEvents :=
    (oldDevices.filter fun d => !(newDevices.any fun o => o.id == d.id)).map
      fun d => { type := DeviceChangeType.removed, device := d, timestamp := now }
  let oldDefault := oldDevices.find? fun d => d.isDefault
  let newDefault := newDevices.find? fun d => d.isDefault
  let defaultEvents :=
    if oldDefault.map (fun d => d.id) ≠ newDefault.map (fun d => d.id) then
      match newDefault with
      | some d => [{ type := DeviceChangeType.defaultChanged, device := d, timestamp := now }]
      | none => []
    else []
  let stateEvents :=
    newDevices.filterMap fun nd =>
      match oldDevices.find? fun od => od.id == nd.id with
      | some od =>
        if od.isEnabled ≠ nd.isEnabled then
          some { type := DeviceChangeType.stateChanged, device := nd, timestamp := now }
        else none
      | none => none
  addedEvents ++ removedEvents ++ defaultEvents ++ stateEvents

/-! ## Capture manager lifecycle

Embeds the state of `AudioCaptureManager` touched by `startCapture` and
`onAudioData`. The native module is summarised by whether it is loaded and
by the boolean its `startCapture` returns; events are collected in a list
in emission order. -/

structure AudioCaptureConfig where
  deviceId : String
  sampleRate : ℕ
  channels : ℕ
  bufferSizeMs : ℕ
  deriving DecidableEq, Repr

structure AudioChunk where
  data : List ℚ
  timestamp : ℚ
  duration : ℚ
  sampleRate : ℕ
  channels : ℕ
  deriving DecidableEq, Repr

structure CaptureManagerState where
  nativeModuleLoaded : Bool
  isCapturing : Bool
  currentConfig : Option AudioCaptureConfig
  ringBuffer : Option RingBuffer
  audioChunks : List AudioChunk
  processingActive : Bool

inductive CaptureError where
  | alreadyCapturing
  | nativeModuleNotLoaded
  | captureFailed
  deriving DecidableEq, Repr

inductive CaptureEvent where
  | captureStarted (config : AudioCaptureConfig)
  | captureStopped
  | bufferOverflow
  | audioChunk (chunk : AudioChunk)
  deriving DecidableEq, Repr

/-- Source `startCapture(config)`: reject when already capturing or the
native module is missing; otherwise allocate a fresh ring buffer sized for
ten seconds of audio, ask the native module to start (its result is the
`nativeStartOk` argument), and on success record the configuration, flip
the capturing flag, reset the chunk history and begin periodic processing.
A native failure surfaces as a capture-failed error thrown after the
buffer allocation. -/
def startCapture (st : CaptureManagerState) (config : AudioCaptureConfig)
    (nativeStartOk : Bool) :
    CaptureManagerState × Option CaptureError × List CaptureEvent :=
  if st.isCapturing then (st, some CaptureError.alreadyCapturing, [])
  else if !st.nativeModuleLoaded then (st, some CaptureError.nativeModuleNotLoaded, [])
  else
    let bufferSizeInSamples := config.sampleRate * config.channels * 10
    let st1 := { st with ringBuffer := some (RingBuffer.new bufferSizeInSamples) }
    if !nativeStartOk then (st1, some CaptureError.captureFailed, [])
    else
      ({ st1 with
          currentConfig := some config
          isCapturing := true
          audioChunks := []
          processingActive := true },
        none, [CaptureEvent.captureStarted config])

/-- Source `onAudioData(audioData)`: drop the delivery unless capturing
with a live buffer and configuration; otherwise write the samples into the
ring buffer and emit a buffer-overflow event when the write reports
failure. -/
def onAudioData (st : CaptureManagerState) (floatData : List ℚ) :
    CaptureManagerState × List CaptureEvent :=
  match st.isCapturing, st.ringBuffer, st.currentConfig with
  | true, some rb, some _ =>
    let result := rb.write floatData
    if result.1 then ({ st with ringBuffer := some result.2 }, [])
    else ({ st with ringBuffer := some result.2 }, [CaptureEvent.bufferOverflow])
  | _, _, _ => (st, [])

/-! ## Segment window

Embeds `SpeechServiceManager.addAudioChunk` and its eviction loop over
`audioBuffer`. -/

/-- The source's buffer cap: keep the last 30 seconds (in milliseconds). -/
def maxBufferDuration : ℚ := 30000

/-- Sum of the chunk durations in the window. -/
def sumDuration (audioBuffer : List AudioChunk) : ℚ :=
  (audioBuffer.map fun c => c.duration).sum

/-- The source's `while (removeDuration > 0 && length > 0)` shift loop. -/
def evictLoop : ℚ → List AudioChunk → List AudioChunk
  | _, [] => []
  | removeDuration, chunk :: rest =>
    if removeDuration > 0 then evictLoop (removeDuration - chunk.duration) rest
    else chunk :: rest

/-- Source `addAudioChunk(chunk)`: push the chunk, then, when the total
duration exceeds the cap, shift oldest chunks until the amount removed
covers the excess. -/
def addAudioChunk (audioBuffer : List AudioChunk) (chunk : AudioChunk) : List AudioChunk :=
  let buf := audioBuffer ++ [chunk]
  let totalDuration := sumDuration buf
  if totalDuration > maxBufferDuration then evictLoop (totalDuration - maxBufferDuration) buf
  else buf

/-! ## Arithmetic helpers for cursor arithmetic modulo the buffer size -/

/-- Reduction of `a % N` when `a < 2 * N`: either `a` itself or `a - N`. -/
theorem mod_cases_of_lt_two_mul {a N : ℕ} (h : a < 2 * N) :
    a % N = if a < N then a else a - N := by
  split_ifs with h1
  · exact Nat.mod_eq_of_lt h1
  · rw [Nat.mod_eq_sub_mod (by omega), Nat.mod_eq_of_lt (by omega)]

/-- Adding distinct offsets below `N` to a base below `N` lands on distinct
residues modulo `N`. -/
theorem add_mod_inj {N r a b : ℕ} (hr : r < N) (ha : a < N) (hb : b < N)
    (h : (r + a) % N = (r + b) % N) : a = b := by
  rw [mod_cases_of_lt_two_mul (show r + a < 2 * N by omega),
    mod_cases_of_lt_two_mul (show r + b < 2 * N by omega)] at h
  split_ifs at h <;> omega

/-- Comparing a root-mean-square energy with a non-negative threshold is
the same as comparing the mean square with the squared threshold: the
squared comparisons used in `processAudio` agree with the source's
comparisons on `Math.sqrt`. -/
theorem sq_comparison_model (m t : ℚ) (hm : 0 ≤ m) (ht : 0 ≤ t) :
    (Real.sqrt m > t ↔ (m : ℝ) > (t : ℝ) ^ 2) ∧
    (Real.sqrt m < t ↔ (m : ℝ) < (t : ℝ) ^ 2) :=
  ⟨Real.lt_sqrt (by exact_mod_cast ht),
    Real.sqrt_lt (by exact_mod_cast hm) (by exact_mod_cast ht)⟩

namespace RingBuffer

theorem WF_new {n : ℕ} (hn : 0 < n) : (new n).WF :=
  ⟨hn, hn, hn⟩

theorem getAvailableData_lt (rb : RingBuffer) (h : rb.WF) :
    rb.getAvailableData < rb.size :=
  Nat.mod_lt _ h.1

/-- The unread count plus the reported space always add up to one less than
the capacity. -/
theorem avail_add_space (rb : RingBuffer) (h : rb.WF) :
    rb.getAvailableData + rb.getAvailableSpace = rb.size - 1 := by
  have := rb.getAvailableData_lt h
  unfold getAvailableSpace
  omega

/-- An empty buffer is exactly one whose cursors coincide. -/
theorem avail_eq_zero (rb : RingBuffer) (h : rb.WF) (hz : rb.getAvailableData = 0) :
    rb.writePos = rb.readPos := by
  obtain ⟨hN, hw, hr⟩ := h
  unfold getAvailableData at hz
  rw [mod_cases_of_lt_two_mul (by omega)] at hz
  split_ifs at hz <;> omega

/-- The write cursor sits `getAvailableData` slots past the read cursor. -/
theorem readPos_add_avail (rb : RingBuffer) (h : rb.WF) :
    (rb.readPos + rb.getAvailableData) % rb.size = rb.writePos := by
  obtain ⟨hN, hw, hr⟩ := h
  unfold getAvailableData
  rw [mod_cases_of_lt_two_mul (show rb.writePos + rb.size - rb.readPos < 2 * rb.size by omega)]
  split_ifs with h1
  · have e : rb.readPos + (rb.writePos + rb.size - rb.readPos) = rb.writePos + rb.size := by
      omega
    rw [e, Nat.add_mod_right, Nat.mod_eq_of_lt hw]
  · have e : rb.readPos + (rb.writePos + rb.size - rb.readPos - rb.size) = rb.writePos := by
      omega
    rw [e, Nat.mod_eq_of_lt hw]

theorem write1_size (rb : RingBuffer) (x : ℚ) : (rb.write1 x).size = rb.size := rfl

theorem write1_readPos (rb : RingBuffer) (x : ℚ) : (rb.write1 x).readPos = rb.readPos := rfl

theorem WF_write1 (rb : RingBuffer) (x : ℚ) (h : rb.WF) : (rb.write1 x).WF :=
  ⟨h.1, Nat.mod_lt _ h.1, h.2.2⟩

/-- Arithmetic core of `getAvailableData_write1`: advancing the write
cursor of a non-full buffer raises the unread count by one. -/
theorem avail_succ {N w r : ℕ} (hw : w < N) (hr : r < N)
    (hs : (w + N - r) % N + 1 < N) :
    ((w + 1) % N + N - r) % N = (w + N - r) % N + 1 := by
  have hlt : (w + 1) % N < N := Nat.mod_lt _ (by omega)
  rw [mod_cases_of_lt_two_mul (show (w + 1) % N + N - r < 2 * N by omega),
    mod_cases_of_lt_two_mul (show w + 1 < 2 * N by omega)]
  rw [mod_cases_of_lt_two_mul (show w + N - r < 2 * N by omega)] at hs ⊢
  split_ifs at hs ⊢ <;> omega

/-- Arithmetic core of the read-loop step: advancing the read cursor of a
non-empty buffer lowers the unread count by one. -/
theorem avail_pred {N w r : ℕ} (hw : w < N) (hr : r < N)
    (hp : 1 ≤ (w + N - r) % N) :
    (w + N - (r + 1) % N) % N = (w + N - r) % N - 1 := by
  have hlt : (r + 1) % N < N := Nat.mod_lt _ (by omega)
  rw [mod_cases_of_lt_two_mul (show w + N - (r + 1) % N < 2 * N by omega),
    mod_cases_of_lt_two_mul (show r + 1 < 2 * N by omega)]
  rw [mod_cases_of_lt_two_mul (show w + N - r < 2 * N by omega)] at hp ⊢
  split_ifs at hp ⊢ <;> omega

/-- Writing one sample into a non-full buffer grows the unread count by one. -/
theorem getAvailableData_write1 (rb : RingBuffer) (x : ℚ) (h : rb.WF)
    (hs : rb.getAvailableData + 1 < rb.size) :
    (rb.write1 x).getAvailableData = rb.getAvailableData + 1 :=
  avail_succ h.2.1 h.2.2 hs

/-- The copy loop of `write` preserves well-formedness, grows the unread
count by the block length, and leaves read cursor and size alone. -/
theorem writeSamples_spec (xs : List ℚ) : ∀ rb : RingBuffer, rb.WF →
    rb.getAvailableData + xs.length + 1 ≤ rb.size →
    (rb.writeSamples xs).WF ∧
    (rb.writeSamples xs).getAvailableData = rb.getAvailableData + xs.length ∧
    (rb.writeSamples xs).readPos = rb.readPos ∧
    (rb.writeSamples xs).size = rb.size := by
  induction xs with
  | nil =>
    intro rb h _
    exact ⟨h, by simp [writeSamples], rfl, rfl⟩
  | cons x rest ih =>
    intro rb h hle
    have h1 : (rb.write1 x).WF := rb.WF_write1 x h
    have h2 : (rb.write1 x).getAvailableData = rb.getAvailableData + 1 :=
      rb.getAvailableData_write1 x h (by simp at hle; omega)
    have h3 : (rb.write1 x).size = rb.size := rfl
    obtain ⟨a, b, c, d⟩ := ih (rb.write1 x) h1 (by rw [h2, h3]; simp at hle ⊢; omega)
    refine ⟨a, ?_, c, d⟩
    rw [show rb.writeSamples (x :: rest) = (rb.write1 x).writeSamples rest from rfl] at *
    rw [b, h2]
    simp
    omega

/-- The write cursor advances by the number of samples written, modulo the
capacity. -/
theorem writeSamples_writePos (xs : List ℚ) : ∀ rb : RingBuffer,
    rb.writePos < rb.size →
    (rb.writeSamples xs).writePos = (rb.writePos + xs.length) % rb.size := by
  induction xs with
  | nil =>
    intro rb hw
    simp [writeSamples, Nat.mod_eq_of_lt hw]
  | cons x rest ih =>
    intro rb hw
    have hN : 0 < rb.size := by omega
    have := ih (rb.write1 x) (Nat.mod_lt _ hN)
    rw [show rb.writeSamples (x :: rest) = (rb.write1 x).writeSamples rest from rfl, this,
      write1_size]
    show ((rb.writePos + 1) % rb.size + rest.length) % rb.size = _
    rw [Nat.mod_add_mod]
    congr 1
    simp
    omega

/-- Slots outside the written range are untouched by the copy loop. -/
theorem writeSamples_buffer_past (xs : List ℚ) : ∀ (rb : RingBuffer) (p : ℕ),
    rb.writePos < rb.size →
    (∀ i < xs.length, p ≠ (rb.writePos + i) % rb.size) →
    (rb.writeSamples xs).buffer p = rb.buffer p := by
  induction xs with
  | nil => intro rb p _ _; rfl
  | cons x rest ih =>
    intro rb p hw hp
    have hN : 0 < rb.size := by omega
    rw [show rb.writeSamples (x :: rest) = (rb.write1 x).writeSamples rest from rfl]
    rw [ih (rb.write1 x) p (Nat.mod_lt _ hN) ?_]
    · show (if p = rb.writePos then x else rb.buffer p) = rb.buffer p
      rw [if_neg]
      have := hp 0 (by simp)
      simpa [Nat.mod_eq_of_lt hw] using this
    · intro i hi
      show p ≠ ((rb.writePos + 1) % rb.size + i) % rb.size
      rw [Nat.mod_add_mod, show rb.writePos + 1 + i = rb.writePos + (i + 1) by omega]
      exact hp (i + 1) (by simpa using Nat.succ_lt_succ hi)

/-- The copy loop deposits sample `i` of the block at offset `i` past the
original write cursor. -/
theorem writeSamples_buffer_at (xs : List ℚ) : ∀ (rb : RingBuffer) (i : ℕ),
    rb.writePos < rb.size → xs.length ≤ rb.size → i < xs.length →
    (rb.writeSamples xs).buffer ((rb.writePos + i) % rb.size) = xs.getD i 0 := by
  induction xs with
  | nil => intro rb i _ _ hi; simp at hi
  | cons x rest ih =>
    intro rb i hw hlen hi
    have hN : 0 < rb.size := by omega
    rw [show rb.writeSamples (x :: rest) = (rb.write1 x).writeSamples rest from rfl]
    match i with
    | 0 =>
      rw [show (rb.writePos + 0) % rb.size = rb.writePos by
        simp [Nat.mod_eq_of_lt hw]]
      rw [writeSamples_buffer_past rest (rb.write1 x) rb.writePos (Nat.mod_lt _ hN) ?_]
      · show (if rb.writePos = rb.writePos then x else _) = _
        simp
      · intro j hj hcontra
        show False
        rw [show (rb.write1 x).writePos = (rb.writePos + 1) % rb.size from rfl,
          write1_size, Nat.mod_add_mod] at hcontra
        rw [mod_cases_of_lt_two_mul (by simp at hlen; omega)] at hcontra
        split_ifs at hcontra <;> simp at hlen <;> omega
    | i + 1 =>
      have := ih (rb.write1 x) i (Nat.mod_lt _ hN)
        (by rw [write1_size]; simp at hlen; omega)
        (by simp at hi; omega)
      rw [show (rb.write1 x).writePos = (rb.writePos + 1) % rb.size from rfl,
        write1_size, Nat.mod_add_mod,
        show rb.writePos + 1 + i = rb.writePos + (i + 1) by omega] at this
      rw [this]
      simp

/-- The read loop returns exactly `n` samples. -/
theorem readLoop_length (n : ℕ) : ∀ rb : RingBuffer, (rb.readLoop n).1.length = n := by
  induction n with
  | zero => intro rb; rfl
  | succ n ih =>
    intro rb
    simp only [readLoop]
    simp [ih]

/-- The read loop never touches storage, write cursor or size. -/
theorem readLoop_rest (n : ℕ) : ∀ rb : RingBuffer,
    (rb.readLoop n).2.buffer = rb.buffer ∧
    (rb.readLoop n).2.writePos = rb.writePos ∧
    (rb.readLoop n).2.size = rb.size := by
  induction n with
  | zero => intro rb; exact ⟨rfl, rfl, rfl⟩
  | succ n ih =>
    intro rb
    exact ih { rb with readPos := (rb.readPos + 1) % rb.size }

/-- The read loop advances the read cursor by the number of samples read. -/
theorem readLoop_readPos (n : ℕ) : ∀ rb : RingBuffer, rb.readPos < rb.size →
    (rb.readLoop n).2.readPos = (rb.readPos + n) % rb.size := by
  induction n with
  | zero => intro rb hr; simp [readLoop, Nat.mod_eq_of_lt hr]
  | succ n ih =>
    intro rb hr
    have hN : 0 < rb.size := by omega
    simp only [readLoop]
    rw [ih _ (Nat.mod_lt _ hN)]
    show ((rb.readPos + 1) % rb.size + n) % rb.size = _
    rw [Nat.mod_add_mod]
    congr 1
    omega

/-- The read loop returns the `n` samples sitting at consecutive offsets
past the read cursor. -/
theorem readLoop_out (n : ℕ) : ∀ rb : RingBuffer, rb.readPos < rb.size →
    (rb.readLoop n).1 =
      (List.range n).map (fun i => rb.buffer ((rb.readPos + i) % rb.size)) := by
  induction n with
  | zero => intro rb _; rfl
  | succ n ih =>
    intro rb hr
    have hN : 0 < rb.size := by omega
    simp only [readLoop]
    rw [ih _ (Nat.mod_lt _ hN)]
    rw [List.range_succ_eq_map, List.map_cons, List.map_map]
    congr 1
    · simp [Nat.mod_eq_of_lt hr]
    · apply List.map_congr_left
      intro i _
      show rb.buffer (((rb.readPos + 1) % rb.size + i) % rb.size) = _
      rw [Nat.mod_add_mod, show rb.readPos + 1 + i = rb.readPos + (i + 1) by omega]
      rfl

/-- Reading `n ≤ getAvailableData` samples lowers the unread count by `n`
and preserves well-formedness. -/
theorem readLoop_avail (n : ℕ) : ∀ rb : RingBuffer, rb.WF →
    n ≤ rb.getAvailableData →
    (rb.readLoop n).2.WF ∧
    (rb.readLoop n).2.getAvailableData = rb.getAvailableData - n := by
  induction n with
  | zero => intro rb h _; exact ⟨h, rfl⟩
  | succ n ih =>
    intro rb h hn
    obtain ⟨hN, hw, hr⟩ := h
    have step : ({ rb with readPos := (rb.readPos + 1) % rb.size } : RingBuffer).getAvailableData =
        rb.getAvailableData - 1 := by
      show (rb.writePos + rb.size - (rb.readPos + 1) % rb.size) % rb.size = _
      unfold getAvailableData at hn ⊢
      exact avail_pred hw hr (by omega)
    have hwf : ({ rb with readPos := (rb.readPos + 1) % rb.size } : RingBuffer).WF :=
      ⟨hN, hw, Nat.mod_lt _ hN⟩
    obtain ⟨a, b⟩ := ih _ hwf (by rw [step]; omega)
    refine ⟨a, ?_⟩
    rw [show (rb.readLoop (n + 1)).2 =
      ({ rb with readPos := (rb.readPos + 1) % rb.size }.readLoop n).2 from rfl, b, step]
    omega

theorem contents_length (rb : RingBuffer) : rb.contents.length = rb.getAvailableData := by
  simp [contents]

/-- Turning a list into lookups of its entries by position gives it back. -/
theorem range_map_getD (xs : List ℚ) :
    (List.range xs.length).map (fun i => xs.getD i 0) = xs := by
  induction xs with
  | nil => rfl
  | cons x rest ih =>
    rw [show (x :: rest).length = rest.length + 1 from rfl, List.range_succ_eq_map,
      List.map_cons, List.map_map]
    refine congrArg₂ List.cons rfl ?_
    conv_rhs => rw [← ih]
    apply List.map_congr_left
    intro i _
    rfl

/-- Queue view of a successful write: the block is appended to the unread
samples. -/
theorem contents_writeSamples (rb : RingBuffer) (xs : List ℚ) (h : rb.WF)
    (hle : rb.getAvailableData + xs.length + 1 ≤ rb.size) :
    (rb.writeSamples xs).contents = rb.contents ++ xs := by
  obtain ⟨hN, hw, hr⟩ := h
  obtain ⟨hwf, havail, hread, hsize⟩ := writeSamples_spec xs rb ⟨hN, hw, hr⟩ hle
  have hdisj : ∀ i < rb.getAvailableData, ∀ j < xs.length,
      (rb.readPos + i) % rb.size ≠ (rb.writePos + j) % rb.size := by
    intro i hi j hj hcontra
    have hkey : (rb.writePos + j) % rb.size
        = (rb.readPos + (rb.getAvailableData + j)) % rb.size := by
      conv_lhs => rw [← rb.readPos_add_avail ⟨hN, hw, hr⟩]
      rw [Nat.mod_add_mod]
      congr 1
      omega
    rw [hkey] at hcontra
    have := add_mod_inj hr (by omega) (by omega) hcontra
    omega
  unfold contents
  rw [havail, hread, hsize, List.range_add, List.map_append]
  congr 1
  · apply List.map_congr_left
    intro i hi
    simp only [List.mem_range] at hi
    exact writeSamples_buffer_past xs rb _ hw (fun j hj => hdisj i hi j hj)
  · rw [List.map_map]
    conv_rhs => rw [← range_map_getD xs]
    apply List.map_congr_left
    intro j hj
    simp only [List.mem_range] at hj
    show (rb.writeSamples xs).buffer ((rb.readPos + (rb.getAvailableData + j)) % rb.size)
      = xs.getD j 0
    have hkey : (rb.readPos + (rb.getAvailableData + j)) % rb.size
        = (rb.writePos + j) % rb.size := by
      conv_rhs => rw [← rb.readPos_add_avail ⟨hN, hw, hr⟩]
      rw [Nat.mod_add_mod]
      congr 1
      omega
    rw [hkey]
    exact writeSamples_buffer_at xs rb j hw (by omega) hj

/-- Behaviour of `write`, split on whether the block fits. -/
theorem write_spec (rb : RingBuffer) (xs : List ℚ) (h : rb.WF) :
    (rb.getAvailableSpace < xs.length → rb.write xs = (false, rb)) ∧
    (xs.length ≤ rb.getAvailableSpace →
      (rb.write xs).1 = true ∧
      (rb.write xs).2.WF ∧
      (rb.write xs).2.getAvailableData = rb.getAvailableData + xs.length ∧
      (rb.write xs).2.contents = rb.contents ++ xs ∧
      (rb.write xs).2.writePos = (rb.writePos + xs.length) % rb.size ∧
      (rb.write xs).2.readPos = rb.readPos ∧
      (rb.write xs).2.size = rb.size) := by
  have havail := rb.getAvailableData_lt h
  constructor
  · intro hover
    unfold write
    rw [if_pos (by omega)]
  · intro hfit
    unfold write
    rw [if_neg (by omega)]
    have hle : rb.getAvailableData + xs.length + 1 ≤ rb.size := by
      unfold getAvailableSpace at hfit
      omega
    obtain ⟨a, b, c, d⟩ := writeSamples_spec xs rb h hle
    exact ⟨rfl, a, b, contents_writeSamples rb xs h hle, writeSamples_writePos xs rb h.2.1, c, d⟩

/-- Behaviour of `read`: it returns the `min count available` oldest unread
samples and drops them from the queue. -/
theorem read_spec (rb : RingBuffer) (count : ℕ) (h : rb.WF) :
    (rb.read count).1.length = min count rb.getAvailableData ∧
    (rb.read count).2.WF ∧
    (rb.read count).2.getAvailableData = rb.getAvailableData - min count rb.getAvailableData ∧
    (rb.read count).2.size = rb.size ∧
    (rb.read count).1 = rb.contents.take count := by
  have hmin : min count rb.getAvailableData ≤ rb.getAvailableData := Nat.min_le_right _ _
  obtain ⟨a, b⟩ := readLoop_avail (min count rb.getAvailableData) rb h hmin
  refine ⟨readLoop_length _ rb, a, b, (readLoop_rest _ rb).2.2, ?_⟩
  unfold read
  rw [readLoop_out _ rb h.2.2]
  unfold contents
  rw [← List.map_take, List.take_range, Nat.min_comm count rb.getAvailableData]

/-- Running any sequence of calls preserves well-formedness and size, and
keeps `written = read + unread` in balance. -/
theorem runOps_invariant (ops : List BufferOp) : ∀ rb : RingBuffer, rb.WF →
    (rb.runOps ops).1.WF ∧
    (rb.runOps ops).1.size = rb.size ∧
    (rb.runOps ops).1.getAvailableData + (rb.runOps ops).2.2 =
      rb.getAvailableData + (rb.runOps ops).2.1 := by
  induction ops with
  | nil => intro rb h; exact ⟨h, rfl, by simp [runOps]⟩
  | cons op rest ih =>
    intro rb h
    match op with
    | BufferOp.write xs =>
      by_cases hfit : xs.length ≤ rb.getAvailableSpace
      · obtain ⟨hfl, hwf, havail, _, _, _, hsize⟩ := (rb.write_spec xs h).2 hfit
        obtain ⟨a, b, c⟩ := ih (rb.write xs).2 hwf
        refine ⟨a, ?_, ?_⟩ <;> simp only [runOps, hfl, if_pos] <;> omega
      · have hfail := (rb.write_spec xs h).1 (by omega)
        have he2 : (rb.write xs).2 = rb := by rw [hfail]
        have he1 : (rb.write xs).1 = false := by rw [hfail]
        obtain ⟨a, b, c⟩ := ih rb h
        rw [← he2] at a b c
        refine ⟨a, ?_, ?_⟩ <;> simp only [runOps, he1, if_neg, Bool.false_eq_true,
          not_false_eq_true, he2] <;> rw [he2] at b c <;> omega
    | BufferOp.read n =>
      obtain ⟨hlen, hwf, havail, hsize, _⟩ := rb.read_spec n h
      obtain ⟨a, b, c⟩ := ih (rb.read n).2 hwf
      have hmin : min n rb.getAvailableData ≤ rb.getAvailableData := Nat.min_le_right _ _
      refine ⟨a, ?_, ?_⟩ <;> simp only [runOps] <;> omega

end RingBuffer

/-! ## Claims about the ring buffer -/

/-- C1: for every sequence of write and read operations on the circular
sample buffer of capacity `n`, `getAvailableData() + getAvailableSpace()`
equals `n - 1`, every `read count` call returns exactly
`min count (getAvailableData())` samples, and the unread count equals the
number of samples successfully written minus the number already read - so
a read never hands out more than was previously written and not yet
read. -/
theorem claim_c1_buffer_invariant (n : ℕ) (hn : 1 ≤ n) (ops : List BufferOp) (count : ℕ) :
    ((RingBuffer.new n).runOps ops).1.getAvailableData
        + ((RingBuffer.new n).runOps ops).1.getAvailableSpace = n - 1 ∧
    (((RingBuffer.new n).runOps ops).1.read count).1.length
        = min count ((RingBuffer.new n).runOps ops).1.getAvailableData ∧
    ((RingBuffer.new n).runOps ops).1.getAvailableData + ((RingBuffer.new n).runOps ops).2.2
        = ((RingBuffer.new n).runOps ops).2.1 := by
  obtain ⟨a, b, c⟩ := RingBuffer.runOps_invariant ops (RingBuffer.new n) (RingBuffer.WF_new hn)
  have h1 := RingBuffer.avail_add_space _ a
  rw [b] at h1
  have h0 : (RingBuffer.new n).getAvailableData = 0 := by
    show (0 + n - 0) % n = 0
    simp
  exact ⟨h1, (RingBuffer.read_spec _ count a).1, by omega⟩

/-- Witness for C1 at capacity 4 with a write of two samples followed by a
read of one. -/
theorem claim_c1_buffer_invariant_witness :
    1 ≤ 4 ∧
    (((RingBuffer.new 4).runOps [BufferOp.write [1, 2], BufferOp.read 1]).1.getAvailableData
        + ((RingBuffer.new 4).runOps
            [BufferOp.write [1, 2], BufferOp.read 1]).1.getAvailableSpace = 4 - 1 ∧
      (((RingBuffer.new 4).runOps [BufferOp.write [1, 2], BufferOp.read 1]).1.read 2).1.length
        = min 2 ((RingBuffer.new 4).runOps
            [BufferOp.write [1, 2], BufferOp.read 1]).1.getAvailableData ∧
      ((RingBuffer.new 4).runOps [BufferOp.write [1, 2], BufferOp.read 1]).1.getAvailableData
          + ((RingBuffer.new 4).runOps [BufferOp.write [1, 2], BufferOp.read 1]).2.2
        = ((RingBuffer.new 4).runOps [BufferOp.write [1, 2], BufferOp.read 1]).2.1) :=
  ⟨by decide, claim_c1_buffer_invariant 4 (by decide) [BufferOp.write [1, 2], BufferOp.read 1] 2⟩

/-- C2: when a block is larger than the reported space, `write` returns the
overflow signal and the buffer is bit-for-bit unchanged - no sample copied,
neither cursor moved; when the block fits, `write` succeeds, appends all
samples to the unread queue and advances the write cursor by the block
length. -/
theorem claim_c2_write_atomic (rb : RingBuffer) (xs : List ℚ) (h : rb.WF) :
    (rb.getAvailableSpace < xs.length → rb.write xs = (false, rb)) ∧
    (xs.length ≤ rb.getAvailableSpace →
      (rb.write xs).1 = true ∧
      (rb.write xs).2.contents = rb.contents ++ xs ∧
      (rb.write xs).2.writePos = (rb.writePos + xs.length) % rb.size ∧
      (rb.write xs).2.readPos = rb.readPos) := by
  obtain ⟨hfail, hfit⟩ := rb.write_spec xs h
  exact ⟨hfail, fun hle =>
    ⟨(hfit hle).1, (hfit hle).2.2.2.1, (hfit hle).2.2.2.2.1, (hfit hle).2.2.2.2.2.1⟩⟩

/-- Witness for C2 at capacity 4: an oversized block of four samples is
rejected without effect, a block of two is accepted. -/
theorem claim_c2_write_atomic_witness :
    ((RingBuffer.new 4).WF ∧
      ((RingBuffer.new 4).getAvailableSpace < ([1, 2, 3, 4] : List ℚ).length →
        (RingBuffer.new 4).write [1, 2, 3, 4] = (false, RingBuffer.new 4))) ∧
    (([1, 2] : List ℚ).length ≤ (RingBuffer.new 4).getAvailableSpace →
      ((RingBuffer.new 4).write [1, 2]).1 = true ∧
      ((RingBuffer.new 4).write [1, 2]).2.contents = (RingBuffer.new 4).contents ++ [1, 2] ∧
      ((RingBuffer.new 4).write [1, 2]).2.writePos
        = ((RingBuffer.new 4).writePos + ([1, 2] : List ℚ).length) % (RingBuffer.new 4).size ∧
      ((RingBuffer.new 4).write [1, 2]).2.readPos = (RingBuffer.new 4).readPos) :=
  ⟨⟨by decide, (claim_c2_write_atomic (RingBuffer.new 4) [1, 2, 3, 4] (by decide)).1⟩,
    (claim_c2_write_atomic (RingBuffer.new 4) [1, 2] (by decide)).2⟩

/-- C9 counterexample: in a buffer that already holds one unread sample
`1`, writing `[2]` (which fits) and reading back one sample returns `[1]`,
the oldest unread sample, not the just-written block `[2]` - the claimed
round trip fails for buffer states with pending unread data. -/
theorem claim_c9_counterexample :
    ([2] : List ℚ).length ≤ (((RingBuffer.new 4).write [1]).2).getAvailableSpace ∧
    ((((((RingBuffer.new 4).write [1]).2).write [2]).2.read 1).1 = [1] ∧
      (((((RingBuffer.new 4).write [1]).2).write [2]).2.read 1).1 ≠ [2]) := by
  decide

/-- C9 (amended): for every buffer state with no pending unread samples,
writing a block that fits and then reading back its length returns exactly
the written samples in order and restores the unread count to its value
before the write. -/
theorem claim_c9_roundtrip (rb : RingBuffer) (xs : List ℚ) (h : rb.WF)
    (hempty : rb.getAvailableData = 0) (hfit : xs.length ≤ rb.getAvailableSpace) :
    (rb.write xs).1 = true ∧
    ((rb.write xs).2.read xs.length).1 = xs ∧
    ((rb.write xs).2.read xs.length).2.getAvailableData = rb.getAvailableData := by
  obtain ⟨hone, hwf, havail, hcont, _, _, _⟩ := (rb.write_spec xs h).2 hfit
  obtain ⟨hlen, hwf2, havail2, _, hout⟩ := RingBuffer.read_spec (rb.write xs).2 xs.length hwf
  refine ⟨hone, ?_, ?_⟩
  · rw [hout, hcont]
    have hnil : rb.contents = [] := by
      unfold RingBuffer.contents
      rw [hempty]
      rfl
    rw [hnil]
    simp
  · rw [havail2, havail, hempty]
    simp

/-- Witness for C9 (amended) at capacity 4 with block `[5, 7]`. -/
theorem claim_c9_roundtrip_witness :
    ((RingBuffer.new 4).WF ∧ (RingBuffer.new 4).getAvailableData = 0 ∧
      ([5, 7] : List ℚ).length ≤ (RingBuffer.new 4).getAvailableSpace) ∧
    ((RingBuffer.new 4).write [5, 7]).1 = true ∧
    (((RingBuffer.new 4).write [5, 7]).2.read ([5, 7] : List ℚ).length).1 = [5, 7] ∧
    (((RingBuffer.new 4).write [5, 7]).2.read ([5, 7] : List ℚ).length).2.getAvailableData
      = (RingBuffer.new 4).getAvailableData :=
  ⟨⟨by decide, by decide, by decide⟩,
    claim_c9_roundtrip (RingBuffer.new 4) [5, 7] (by decide) (by decide) (by decide)⟩

/-! ## Voice activity detector lemmas and claims -/

namespace VoiceActivityDetector

/-- A block with energy above the speech threshold: the detector marks
speech (keeping the original start time when already speaking), resets the
silence timer and reports whether speech has lasted strictly longer than
the minimum speech duration. -/
theorem processAudio_high (vad : VoiceActivityDetector) (b : List ℚ) (t : ℚ)
    (hE : calculateEnergySq b > vad.energyThreshold ^ 2) :
    vad.processAudio b t =
      (decide (t - (if vad.isSpeaking then vad.speechStartTime else t)
          > vad.minSpeechDuration),
        { vad with
          speechStartTime := if vad.isSpeaking then vad.speechStartTime else t
          isSpeaking := true
          silenceStartTime := 0 }) := by
  unfold processAudio
  dsimp only
  rw [if_pos hE]
  simp

/-- A block without speech-level energy leaves a non-speaking detector
unchanged and the verdict is negative. -/
theorem processAudio_notSpeaking (vad : VoiceActivityDetector) (b : List ℚ) (t : ℚ)
    (hns : vad.isSpeaking = false)
    (hE : ¬ calculateEnergySq b > vad.energyThreshold ^ 2) :
    vad.processAudio b t = (false, vad) := by
  unfold processAudio
  dsimp only
  rw [if_neg hE]
  by_cases hS : calculateEnergySq b < vad.silenceThreshold ^ 2
  · rw [if_pos hS]
    simp [hns]
  · rw [if_neg hS]
    simp [hns]

/-- While the detector is speaking and every block keeps speech-level
energy, each verdict is exactly `now - speechStartTime > minSpeechDuration`
and the speech start time never moves. -/
theorem runVad_speaking (calls : List (List ℚ × ℚ)) : ∀ vad : VoiceActivityDetector,
    vad.isSpeaking = true →
    (∀ c ∈ calls, calculateEnergySq c.1 > vad.energyThreshold ^ 2) →
    (vad.runVad calls).1 =
      calls.map (fun c => decide (c.2 - vad.speechStartTime > vad.minSpeechDuration)) ∧
    (vad.runVad calls).2.isSpeaking = true ∧
    (vad.runVad calls).2.speechStartTime = vad.speechStartTime := by
  induction calls with
  | nil => intro vad h _; exact ⟨rfl, h, rfl⟩
  | cons c rest ih =>
    intro vad h hE
    obtain ⟨b, t⟩ := c
    have hstep := processAudio_high vad b t (hE (b, t) (by simp))
    rw [h] at hstep
    simp only [if_true] at hstep
    simp only [runVad]
    rw [hstep]
    obtain ⟨hout, hspk2, hstart2⟩ :=
      ih { vad with speechStartTime := vad.speechStartTime, isSpeaking := true, silenceStartTime := 0 }
        rfl (fun c hc => hE c (List.mem_cons_of_mem _ hc))
    refine ⟨?_, hspk2, hstart2⟩
    rw [hout]
    simp

/-- A non-speaking detector fed only blocks without speech-level energy
answers `false` on every call. -/
theorem runVad_notSpeaking (calls : List (List ℚ × ℚ)) : ∀ vad : VoiceActivityDetector,
    vad.isSpeaking = false →
    (∀ c ∈ calls, ¬ calculateEnergySq c.1 > vad.energyThreshold ^ 2) →
    (vad.runVad calls).1.all (fun r => r = false) = true := by
  induction calls with
  | nil => intro vad _ _; rfl
  | cons c rest ih =>
    intro vad h hE
    obtain ⟨b, t⟩ := c
    have hstep := processAudio_notSpeaking vad b t h (hE (b, t) (by simp))
    simp only [runVad]
    rw [hstep]
    have hrest := ih vad h (fun c hc => hE c (List.mem_cons_of_mem _ hc))
    simp only [List.all_cons, hrest]
    rfl

end VoiceActivityDetector

/-- C3 counterexample: with the default configuration (minimum speech
duration 300 ms) and speech-level blocks every 100 ms starting at time 0,
the verdict at time 200 (= minimum minus one cycle) is `false` as claimed,
but the verdict one cycle later at time 300 (= start + minimum) is still
`false`, because the source compares with strict inequality - the claim
says that call must return `true`. -/
theorem claim_c3_counterexample :
    VoiceActivityDetector.default.minSpeechDuration = 300 ∧
    (VoiceActivityDetector.default.runVad
        [([0.1], 0), ([0.1], 100), ([0.1], 200), ([0.1], 300)]).1
      = [false, false, false, false] := by
  constructor
  · norm_num [VoiceActivityDetector.default, VoiceActivityDetector.create]
  · norm_num [VoiceActivityDetector.runVad, VoiceActivityDetector.processAudio,
      VoiceActivityDetector.calculateEnergySq, VoiceActivityDetector.default,
      VoiceActivityDetector.create]

/-- C3 (amended): for a run of classify calls with energy above the speech
threshold starting at time `t0` from a non-speaking state, the call at
time `t` returns `true` exactly when `t - t0` strictly exceeds the minimum
speech duration; in particular the calls at `t0 + minimum - cycle` and at
`t0 + minimum` return `false` and the call at `t0 + minimum + cycle`
returns `true`. -/
theorem claim_c3_speech_debounce (vad : VoiceActivityDetector) (b0 : List ℚ) (t0 : ℚ)
    (calls : List (List ℚ × ℚ))
    (hns : vad.isSpeaking = false)
    (h0 : VoiceActivityDetector.calculateEnergySq b0 > vad.energyThreshold ^ 2)
    (hcalls : ∀ c ∈ calls,
      VoiceActivityDetector.calculateEnergySq c.1 > vad.energyThreshold ^ 2) :
    (vad.runVad ((b0, t0) :: calls)).1
      = ((b0, t0) :: calls).map (fun c => decide (c.2 - t0 > vad.minSpeechDuration)) := by
  have hstep := VoiceActivityDetector.processAudio_high vad b0 t0 h0
  rw [hns] at hstep
  simp only [Bool.false_eq_true, if_false] at hstep
  simp only [VoiceActivityDetector.runVad]
  rw [hstep]
  obtain ⟨hout, _, _⟩ := VoiceActivityDetector.runVad_speaking calls
    { vad with speechStartTime := t0, isSpeaking := true, silenceStartTime := 0 }
    rfl (fun c hc => hcalls c hc)
  rw [hout]
  simp

/-- Witness for C3 (amended): default configuration, blocks of constant
amplitude 0.1 every 100 ms; the verdicts flip to `true` only after 300 ms
have strictly elapsed. -/
theorem claim_c3_speech_debounce_witness :
    (VoiceActivityDetector.default.isSpeaking = false ∧
      VoiceActivityDetector.calculateEnergySq [0.1]
        > VoiceActivityDetector.default.energyThreshold ^ 2 ∧
      (∀ c ∈ ([([0.1], 100), ([0.1], 200), ([0.1], 300), ([0.1], 400)] : List (List ℚ × ℚ)),
        VoiceActivityDetector.calculateEnergySq c.1
          > VoiceActivityDetector.default.energyThreshold ^ 2)) ∧
    (VoiceActivityDetector.default.runVad
        (([0.1], 0) :: [([0.1], 100), ([0.1], 200), ([0.1], 300), ([0.1], 400)])).1
      = ((([0.1], 0) :: [([0.1], 100), ([0.1], 200), ([0.1], 300), ([0.1], 400)])
          : List (List ℚ × ℚ)).map
          (fun c => decide (c.2 - 0 > VoiceActivityDetector.default.minSpeechDuration)) := by
  have h1 : VoiceActivityDetector.default.isSpeaking = false := rfl
  have h2 : VoiceActivityDetector.calculateEnergySq [0.1]
      > VoiceActivityDetector.default.energyThreshold ^ 2 := by
    norm_num [VoiceActivityDetector.calculateEnergySq, VoiceActivityDetector.default,
      VoiceActivityDetector.create]
  have h3 : ∀ c ∈ ([([0.1], 100), ([0.1], 200), ([0.1], 300), ([0.1], 400)]
      : List (List ℚ × ℚ)),
      VoiceActivityDetector.calculateEnergySq c.1
        > VoiceActivityDetector.default.energyThreshold ^ 2 := by
    intro c hc
    fin_cases hc <;>
      norm_num [VoiceActivityDetector.calculateEnergySq, VoiceActivityDetector.default,
        VoiceActivityDetector.create]
  exact ⟨⟨h1, h2, h3⟩,
    claim_c3_speech_debounce VoiceActivityDetector.default [0.1] 0
      [([0.1], 100), ([0.1], 200), ([0.1], 300), ([0.1], 400)] h1 h2 h3⟩

/-- C7: a speaking detector whose silence timer is set, fed a block below
the silence threshold once more than the minimum silence duration has
elapsed, transitions to not-speaking, clears both start markers and
returns `false`; and as long as every following block stays at or below
the speech threshold, every following verdict is `false`. -/
theorem claim_c7_silence_transition (vad : VoiceActivityDetector) (b : List ℚ) (now : ℚ)
    (calls : List (List ℚ × ℚ))
    (hspk : vad.isSpeaking = true)
    (hth0 : 0 ≤ vad.silenceThreshold)
    (hth : vad.silenceThreshold ≤ vad.energyThreshold)
    (hsil : VoiceActivityDetector.calculateEnergySq b < vad.silenceThreshold ^ 2)
    (hset : vad.silenceStartTime > 0)
    (helapsed : now - vad.silenceStartTime > vad.minSilenceDuration)
    (hcalls : ∀ c ∈ calls,
      ¬ VoiceActivityDetector.calculateEnergySq c.1 > vad.energyThreshold ^ 2) :
    (vad.processAudio b now).1 = false ∧
    (vad.processAudio b now).2.isSpeaking = false ∧
    (vad.processAudio b now).2.speechStartTime = 0 ∧
    (vad.processAudio b now).2.silenceStartTime = 0 ∧
    ((vad.processAudio b now).2.runVad calls).1.all (fun r => r = false) = true := by
  have hE : ¬ VoiceActivityDetector.calculateEnergySq b > vad.energyThreshold ^ 2 := by
    have hsq : vad.silenceThreshold ^ 2 ≤ vad.energyThreshold ^ 2 :=
      pow_le_pow_left₀ hth0 hth 2
    exact not_lt.mpr (le_of_lt (lt_of_lt_of_le hsil hsq))
  have hstate : vad.processAudio b now =
      (false, { vad with isSpeaking := false, speechStartTime := 0, silenceStartTime := 0 }) := by
    have hA : ¬(vad.isSpeaking = true ∧ vad.silenceStartTime = 0) :=
      fun hcon => absurd hcon.2 (ne_of_gt hset)
    have hB : vad.isSpeaking = true ∧ vad.silenceStartTime > 0 ∧
        now - vad.silenceStartTime > vad.minSilenceDuration :=
      ⟨hspk, hset, helapsed⟩
    unfold VoiceActivityDetector.processAudio
    dsimp only
    rw [if_neg hE, if_pos hsil, if_neg hA, if_pos hB]
    simp
  rw [hstate]
  refine ⟨rfl, rfl, rfl, rfl, ?_⟩
  exact VoiceActivityDetector.runVad_notSpeaking calls _ rfl (fun c hc => hcalls c hc)

/-- Witness for C7: detector speaking since time 50, silence recorded at
time 1000, a zero block arriving at 1600 (600 ms of silence > 500 ms
minimum) ends speech; quiet and mid-band blocks afterwards keep the
verdict `false`. -/
theorem claim_c7_silence_transition_witness :
    (VoiceActivityDetector.speakingSince50.isSpeaking = true ∧
      0 ≤ VoiceActivityDetector.speakingSince50.silenceThreshold ∧
      VoiceActivityDetector.speakingSince50.silenceThreshold
        ≤ VoiceActivityDetector.speakingSince50.energyThreshold ∧
      VoiceActivityDetector.calculateEnergySq [0]
        < VoiceActivityDetector.speakingSince50.silenceThreshold ^ 2 ∧
      VoiceActivityDetector.speakingSince50.silenceStartTime > 0 ∧
      (1600 : ℚ) - VoiceActivityDetector.speakingSince50.silenceStartTime
        > VoiceActivityDetector.speakingSince50.minSilenceDuration ∧
      (∀ c ∈ ([([0], 1700), ([0.007], 1800)] : List (List ℚ × ℚ)),
        ¬ VoiceActivityDetector.calculateEnergySq c.1
          > VoiceActivityDetector.speakingSince50.energyThreshold ^ 2)) ∧
    (VoiceActivityDetector.speakingSince50.processAudio [0] 1600).1 = false ∧
    (VoiceActivityDetector.speakingSince50.processAudio [0] 1600).2.isSpeaking = false ∧
    (VoiceActivityDetector.speakingSince50.processAudio [0] 1600).2.speechStartTime = 0 ∧
    (VoiceActivityDetector.speakingSince50.processAudio [0] 1600).2.silenceStartTime = 0 ∧
    ((VoiceActivityDetector.speakingSince50.processAudio [0] 1600).2.runVad
        [([0], 1700), ([0.007], 1800)]).1.all (fun r => r = false) = true := by
  have h1 : VoiceActivityDetector.speakingSince50.isSpeaking = true := rfl
  have h2 : 0 ≤ VoiceActivityDetector.speakingSince50.silenceThreshold := by
    norm_num [VoiceActivityDetector.speakingSince50]
  have h3 : VoiceActivityDetector.speakingSince50.silenceThreshold
      ≤ VoiceActivityDetector.speakingSince50.energyThreshold := by
    norm_num [VoiceActivityDetector.speakingSince50]
  have h4 : VoiceActivityDetector.calculateEnergySq [0]
      < VoiceActivityDetector.speakingSince50.silenceThreshold ^ 2 := by
    norm_num [VoiceActivityDetector.calculateEnergySq, VoiceActivityDetector.speakingSince50]
  have h5 : VoiceActivityDetector.speakingSince50.silenceStartTime > 0 := by
    norm_num [VoiceActivityDetector.speakingSince50]
  have h6 : (1600 : ℚ) - VoiceActivityDetector.speakingSince50.silenceStartTime
      > VoiceActivityDetector.speakingSince50.minSilenceDuration := by
    norm_num [VoiceActivityDetector.speakingSince50]
  have h7 : ∀ c ∈ ([([0], 1700), ([0.007], 1800)] : List (List ℚ × ℚ)),
      ¬ VoiceActivityDetector.calculateEnergySq c.1
        > VoiceActivityDetector.speakingSince50.energyThreshold ^ 2 := by
    intro c hc
    fin_cases hc <;>
      norm_num [VoiceActivityDetector.calculateEnergySq, VoiceActivityDetector.speakingSince50]
  exact ⟨⟨h1, h2, h3, h4, h5, h6, h7⟩,
    claim_c7_silence_transition VoiceActivityDetector.speakingSince50 [0] 1600
      [([0], 1700), ([0.007], 1800)] h1 h2 h3 h4 h5 h6 h7⟩

/-! ## Device-change detection claims -/

/-- C4: for any old device set `{A marked default, B}` and new device set
`{B, C marked default}` with pairwise distinct ids, one diff cycle emits
exactly three events - added(C), removed(A) and default-changed(C) - with
no duplicate and no missing events. -/
theorem claim_c4_device_diff (now : ℚ) (A B C : AudioDevice)
    (hAB : A.id ≠ B.id) (hAC : A.id ≠ C.id) (hBC : B.id ≠ C.id)
    (hA : A.isDefault = true) (hB : B.isDefault = false) (hC : C.isDefault = true) :
    detectDeviceChanges now [A, B] [B, C] =
      [{ type := DeviceChangeType.added, device := C, timestamp := now },
        { type := DeviceChangeType.removed, device := A, timestamp := now },
        { type := DeviceChangeType.defaultChanged, device := C, timestamp := now }] := by
  have e1 : (A.id == B.id) = false := beq_eq_false_iff_ne.mpr hAB
  have e2 : (A.id == C.id) = false := beq_eq_false_iff_ne.mpr hAC
  have e3 : (B.id == C.id) = false := beq_eq_false_iff_ne.mpr hBC
  have e4 : (B.id == A.id) = false := beq_eq_false_iff_ne.mpr (Ne.symm hAB)
  have e5 : (C.id == A.id) = false := beq_eq_false_iff_ne.mpr (Ne.symm hAC)
  have e6 : (C.id == B.id) = false := beq_eq_false_iff_ne.mpr (Ne.symm hBC)
  simp [detectDeviceChanges, List.find?, List.filter, List.filterMap,
    e1, e2, e3, e4, e5, e6, hA, hB, hC, hAC]

/-- Witness for C4 on three concrete devices with distinct ids. -/
theorem claim_c4_device_diff_witness :
    (let A : AudioDevice :=
      { id := "a", name := "Mic A", isDefault := true, isEnabled := true,
        channels := 1, sampleRate := 44100 }
    let B : AudioDevice :=
      { id := "b", name := "Mic B", isDefault := false, isEnabled := true,
        channels := 1, sampleRate := 48000 }
    let C : AudioDevice :=
      { id := "c", name := "Mic C", isDefault := true, isEnabled := true,
        channels := 2, sampleRate := 44100 }
    A.id ≠ B.id ∧ A.id ≠ C.id ∧ B.id ≠ C.id ∧
      A.isDefault = true ∧ B.isDefault = false ∧ C.isDefault = true ∧
      detectDeviceChanges 5 [A, B] [B, C] =
        [{ type := DeviceChangeType.added, device := C, timestamp := 5 },
          { type := DeviceChangeType.removed, device := A, timestamp := 5 },
          { type := DeviceChangeType.defaultChanged, device := C, timestamp := 5 }]) :=
  ⟨by decide, by decide, by decide, rfl, rfl, rfl,
    claim_c4_device_diff 5 _ _ _ (by decide) (by decide) (by decide) rfl rfl rfl⟩

/-- C10: a default-changed event is emitted only when the new device set
contains a device marked default; when no new device is default, the diff
cycle emits no default-changed event at all - even though the old set may
have had a default. -/
theorem claim_c10_default_requires_new (now : ℚ) (oldDevices newDevices : List AudioDevice)
    (h : ∀ d ∈ newDevices, d.isDefault = false) :
    (detectDeviceChanges now oldDevices newDevices).filter
      (fun e => e.type == DeviceChangeType.defaultChanged) = [] := by
  have hfind : newDevices.find? (fun d => d.isDefault) = none :=
    List.find?_eq_none.mpr (fun x hx => by simp [h x hx])
  rw [List.filter_eq_nil_iff]
  intro e he
  unfold detectDeviceChanges at he
  dsimp only at he
  rw [hfind] at he
  simp only [List.mem_append] at he
  rcases he with ((h1 | h2) | h3) | h4
  · obtain ⟨d, _, rfl⟩ := List.mem_map.mp h1
    simp
  · obtain ⟨d, _, rfl⟩ := List.mem_map.mp h2
    simp
  · rw [ite_self] at h3
    simp at h3
  · obtain ⟨d, _, hmatch⟩ := List.mem_filterMap.mp h4
    rcases hfound : oldDevices.find? fun od => od.id == d.id with _ | od <;>
      rw [hfound] at hmatch <;> dsimp only at hmatch
    · simp at hmatch
    · by_cases hen : od.isEnabled ≠ d.isEnabled
      · rw [if_pos hen] at hmatch
        obtain rfl := Option.some.inj hmatch
        simp
      · rw [if_neg hen] at hmatch
        simp at hmatch

/-- Witness for C10: the old set has a default device, the new set has
none, and the diff emits no default-changed event. -/
theorem claim_c10_default_requires_new_witness :
    (let A : AudioDevice :=
      { id := "a", name := "Mic A", isDefault := true, isEnabled := true,
        channels := 1, sampleRate := 44100 }
    let B : AudioDevice :=
      { id := "b", name := "Mic B", isDefault := false, isEnabled := true,
        channels := 1, sampleRate := 48000 }
    (∀ d ∈ [B], d.isDefault = false) ∧
      (detectDeviceChanges 7 [A] [B]).filter
        (fun e => e.type == DeviceChangeType.defaultChanged) = []) :=
  ⟨by decide,
    claim_c10_default_requires_new 7
      [{ id := "a"
         name := "Mic A"
         isDefault := true
         isEnabled := true
         channels := 1
         sampleRate := 44100 }]
      [{ id := "b"
         name := "Mic B"
         isDefault := false
         isEnabled := true
         channels := 1
         sampleRate := 48000 }] (by decide)⟩

/-! ## Capture lifecycle claims -/

/-- C5 counterexample: a start attempt on an idle manager holding a ring
buffer of size 5 fails at the driver, reports capture-failed - but the
ring buffer field now holds a freshly allocated buffer (sized for the
requested configuration, here 20 samples), so the orchestrator state is
not entirely unchanged. -/
theorem claim_c5_counterexample :
    (startCapture
        { nativeModuleLoaded := true
          isCapturing := false
          currentConfig := none
          ringBuffer := some (RingBuffer.new 5)
          audioChunks := []
          processingActive := false }
        { deviceId := "mic", sampleRate := 2, channels := 1, bufferSizeMs := 100 }
        false).2.1 = some CaptureError.captureFailed ∧
    (startCapture
        { nativeModuleLoaded := true
          isCapturing := false
          currentConfig := none
          ringBuffer := some (RingBuffer.new 5)
          audioChunks := []
          processingActive := false }
        { deviceId := "mic", sampleRate := 2, channels := 1, bufferSizeMs := 100 }
        false).1.ringBuffer ≠ some (RingBuffer.new 5) := by
  refine ⟨rfl, ?_⟩
  intro hcon
  have hsz := congrArg (fun o => Option.map RingBuffer.size o) hcon
  simp only [startCapture, RingBuffer.new] at hsz
  simp at hsz

/-- C5 (amended): when the driver's start-capture operation fails, the
attempt aborts with a capture-failed error and the lifecycle flag, current
configuration, segment history and processing flag are unchanged - but the
ring buffer field has already been replaced by a freshly allocated empty
buffer sized for the requested configuration. -/
theorem claim_c5_start_failure (st : CaptureManagerState) (config : AudioCaptureConfig)
    (h1 : st.isCapturing = false) (h2 : st.nativeModuleLoaded = true) :
    startCapture st config false =
      ({ st with
          ringBuffer := some (RingBuffer.new (config.sampleRate * config.channels * 10)) },
        some CaptureError.captureFailed, []) := by
  simp [startCapture, h1, h2]

/-- Witness for C5 (amended) on a concrete idle state and configuration. -/
theorem claim_c5_start_failure_witness :
    (let stW : CaptureManagerState :=
      { nativeModuleLoaded := true
        isCapturing := false
        currentConfig := none
        ringBuffer := some (RingBuffer.new 5)
        audioChunks := []
        processingActive := false }
    let cfgW : AudioCaptureConfig :=
      { deviceId := "mic", sampleRate := 3, channels := 2, bufferSizeMs := 100 }
    stW.isCapturing = false ∧ stW.nativeModuleLoaded = true ∧
      startCapture stW cfgW false =
        ({ stW with
            ringBuffer := some (RingBuffer.new (cfgW.sampleRate * cfgW.channels * 10)) },
          some CaptureError.captureFailed, [])) :=
  ⟨rfl, rfl, claim_c5_start_failure _ _ rfl rfl⟩

/-- C6: a single delivery carrying more samples than the buffer can accept
fires exactly one buffer-overflow event and leaves the manager state -
including the capturing flag and every previously stored sample in the
ring buffer - unchanged. -/
theorem claim_c6_overflow_event (st : CaptureManagerState) (rb : RingBuffer)
    (cfg : AudioCaptureConfig) (floatData : List ℚ)
    (hc : st.isCapturing = true) (hrb : st.ringBuffer = some rb)
    (hcfg : st.currentConfig = some cfg)
    (hover : rb.getAvailableSpace < floatData.length) :
    onAudioData st floatData = (st, [CaptureEvent.bufferOverflow]) := by
  have hfail : rb.write floatData = (false, rb) := by
    unfold RingBuffer.write
    rw [if_pos (by omega)]
  rcases st with ⟨nm, ic, cc, rbf, ac, pa⟩
  dsimp only at hc hrb hcfg
  subst hc hrb hcfg
  unfold onAudioData
  dsimp only
  rw [hfail]
  rfl

/-- Witness for C6: capturing with a size-4 buffer, a delivery of five
samples overflows and fires exactly one event. -/
theorem claim_c6_overflow_event_witness :
    (let stW : CaptureManagerState :=
      { nativeModuleLoaded := true
        isCapturing := true
        currentConfig := some { deviceId := "mic", sampleRate := 2, channels := 1, bufferSizeMs := 100 }
        ringBuffer := some (RingBuffer.new 4)
        audioChunks := []
        processingActive := true }
    stW.isCapturing = true ∧
      stW.ringBuffer = some (RingBuffer.new 4) ∧
      stW.currentConfig
        = some { deviceId := "mic", sampleRate := 2, channels := 1, bufferSizeMs := 100 } ∧
      (RingBuffer.new 4).getAvailableSpace < ([1, 2, 3, 4, 5] : List ℚ).length ∧
      onAudioData stW [1, 2, 3, 4, 5] = (stW, [CaptureEvent.bufferOverflow])) :=
  ⟨rfl, rfl, rfl, by decide,
    claim_c6_overflow_event _ (RingBuffer.new 4) _ [1, 2, 3, 4, 5] rfl rfl rfl (by decide)⟩

/-! ## Segment window claims -/

theorem sumDuration_append (l m : List AudioChunk) :
    sumDuration (l ++ m) = sumDuration l + sumDuration m := by
  simp [sumDuration]

theorem sumDuration_take_drop (l : List AudioChunk) (j : ℕ) :
    sumDuration (l.take j) + sumDuration (l.drop j) = sumDuration l := by
  rw [← sumDuration_append, List.take_append_drop]

/-- The eviction loop drops some front segments; it keeps dropping exactly
while the remaining excess is positive, and stops either on an empty
window or once the removed durations cover the excess. -/
theorem evictLoop_spec (buf : List AudioChunk) : ∀ rd : ℚ,
    ∃ k ≤ buf.length,
      evictLoop rd buf = buf.drop k ∧
      (∀ j < k, 0 < rd - sumDuration (buf.take j)) ∧
      (buf.drop k = [] ∨ rd - sumDuration (buf.take k) ≤ 0) := by
  induction buf with
  | nil =>
    intro rd
    exact ⟨0, le_refl 0, rfl, fun j hj => absurd hj (Nat.not_lt_zero j), Or.inl rfl⟩
  | cons c rest ih =>
    intro rd
    by_cases h : rd > 0
    · obtain ⟨k, hk, he, hmin, hexit⟩ := ih (rd - c.duration)
      refine ⟨k + 1, by simpa using Nat.succ_le_succ hk, ?_, ?_, ?_⟩
      · show evictLoop rd (c :: rest) = (c :: rest).drop (k + 1)
        unfold evictLoop
        rw [if_pos h]
        exact he
      · intro j hj
        match j with
        | 0 => simpa [sumDuration] using h
        | j + 1 =>
          have hstep := hmin j (by omega)
          simp only [List.take_succ_cons, sumDuration, List.map_cons, List.sum_cons] at hstep ⊢
          linarith
      · rcases hexit with h1 | h1
        · exact Or.inl h1
        · right
          simp only [List.take_succ_cons, sumDuration, List.map_cons, List.sum_cons]
          simp only [sumDuration] at h1
          linarith
    · refine ⟨0, Nat.zero_le _, ?_, fun j hj => absurd hj (Nat.not_lt_zero j), Or.inr ?_⟩
      · show evictLoop rd (c :: rest) = c :: rest
        unfold evictLoop
        rw [if_neg h]
      · simpa [sumDuration] using not_lt.mp h

/-- C8: every push evicts only from the front (the result is a tail of the
old window with the new segment appended), the total duration of the
result is at most the cap, and eviction is minimal - every segment that was
dropped was dropped while the running total still exceeded the cap, so no
segment is removed for any other reason. -/
theorem claim_c8_segment_window (audioBuffer : List AudioChunk) (chunk : AudioChunk) :
    ∃ k ≤ (audioBuffer ++ [chunk]).length,
      addAudioChunk audioBuffer chunk = (audioBuffer ++ [chunk]).drop k ∧
      sumDuration (addAudioChunk audioBuffer chunk) ≤ maxBufferDuration ∧
      ∀ j < k, maxBufferDuration < sumDuration ((audioBuffer ++ [chunk]).drop j) := by
  unfold addAudioChunk
  dsimp only
  by_cases htot : sumDuration (audioBuffer ++ [chunk]) > maxBufferDuration
  · rw [if_pos htot]
    obtain ⟨k, hk, he, hmin, hexit⟩ :=
      evictLoop_spec (audioBuffer ++ [chunk])
        (sumDuration (audioBuffer ++ [chunk]) - maxBufferDuration)
    refine ⟨k, hk, he, ?_, ?_⟩
    · rw [he]
      rcases hexit with h1 | h1
      · rw [h1]
        simp [sumDuration, maxBufferDuration]
      · have hsplit := sumDuration_take_drop (audioBuffer ++ [chunk]) k
        linarith
    · intro j hj
      have hstep := hmin j hj
      have hsplit := sumDuration_take_drop (audioBuffer ++ [chunk]) j
      linarith
  · rw [if_neg htot]
    exact ⟨0, Nat.zero_le _, rfl, not_lt.mp htot,
      fun j hj => absurd hj (Nat.not_lt_zero j)⟩

end AudioMCP
